import Mathlib

/-!
Verification of the ISBN_Maker core against its specification.

Shallow embedding of `src/isbn_barcode_generator/core`:
* `encoder.py` (`EAN13Encoder.encode`) — EAN-13 module patterns;
* `addon_encoder.py` (`AddonEncoder.encode_2` / `encode_5`) — EAN-2/EAN-5 add-ons;
* `validator.py` (`ISBNValidator`) — digit extraction, validation, check digits;
* `renderer.py` (sizing and bar geometry) — `_mm_to_px`, `_calculate_image_size`,
  `_calculate_barcode_area`, `_draw_barcode`, with Python floats idealised as `ℚ`
  and Python `int()` as truncation toward zero;
* `template_manager.py` (`_serialize_config` / `_deserialize_config`).

Digit strings are `List Char`; a Python digit character maps to its value via
`charVal`.  Fallible Python entry points (those that raise `ValueError`) are
embedded as `Option`-returning functions.
-/

/-- Value of a digit character, `int(c)` in Python: `ord c - ord '0'`. -/
def charVal (c : Char) : ℕ := c.toNat - 48

/-- `BarcodePattern` dataclass from `encoder.py`. -/
structure BarcodePattern where
  bars : List ℕ
  module_count : ℕ
  guard_positions : List ℕ
  deriving Repr, DecidableEq

namespace EAN13Encoder

/-- `START_GUARD = "101"`. -/
def startGuard : List ℕ := [1, 0, 1]

/-- `CENTER_GUARD = "01010"`. -/
def centerGuard : List ℕ := [0, 1, 0, 1, 0]

/-- `END_GUARD = "101"`. -/
def endGuard : List ℕ := [1, 0, 1]

/-- `L_CODES` table, keyed by digit value (left-odd codes). -/
def lCode : ℕ → List ℕ
  | 0 => [0, 0, 0, 1, 1, 0, 1]
  | 1 => [0, 0, 1, 1, 0, 0, 1]
  | 2 => [0, 0, 1, 0, 0, 1, 1]
  | 3 => [0, 1, 1, 1, 1, 0, 1]
  | 4 => [0, 1, 0, 0, 0, 1, 1]
  | 5 => [0, 1, 1, 0, 0, 0, 1]
  | 6 => [0, 1, 0, 1, 1, 1, 1]
  | 7 => [0, 1, 1, 1, 0, 1, 1]
  | 8 => [0, 1, 1, 0, 1, 1, 1]
  | 9 => [0, 0, 0, 1, 0, 1, 1]
  | _ => []

/-- `G_CODES` table, keyed by digit value (left-even codes). -/
def gCode : ℕ → List ℕ
  | 0 => [0, 1, 0, 0, 1, 1, 1]
  | 1 => [0, 1, 1, 0, 0, 1, 1]
  | 2 => [0, 0, 1, 1, 0, 1, 1]
  | 3 => [0, 1, 0, 0, 0, 0, 1]
  | 4 => [0, 0, 1, 1, 1, 0, 1]
  | 5 => [0, 1, 1, 1, 0, 0, 1]
  | 6 => [0, 0, 0, 0, 1, 0, 1]
  | 7 => [0, 0, 1, 0, 0, 0, 1]
  | 8 => [0, 0, 0, 1, 0, 0, 1]
  | 9 => [0, 0, 1, 0, 1, 1, 1]
  | _ => []

/-- `R_CODES` table, keyed by digit value (right codes). -/
def rCode : ℕ → List ℕ
  | 0 => [1, 1, 1, 0, 0, 1, 0]
  | 1 => [1, 1, 0, 0, 1, 1, 0]
  | 2 => [1, 1, 0, 1, 1, 0, 0]
  | 3 => [1, 0, 0, 0, 0, 1, 0]
  | 4 => [1, 0, 1, 1, 1, 0, 0]
  | 5 => [1, 0, 0, 1, 1, 1, 0]
  | 6 => [1, 0, 1, 0, 0, 0, 0]
  | 7 => [1, 0, 0, 0, 1, 0, 0]
  | 8 => [1, 0, 0, 1, 0, 0, 0]
  | 9 => [1, 1, 1, 0, 1, 0, 0]
  | _ => []

/-- `PARITY_PATTERNS` table, keyed by the value of the first digit;
`true` stands for the character `L`, `false` for `G`. -/
def parityPattern : ℕ → List Bool
  | 0 => [true, true, true, true, true, true]
  | 1 => [true, true, false, true, false, false]
  | 2 => [true, true, false, false, true, false]
  | 3 => [true, true, false, false, false, true]
  | 4 => [true, false, true, true, false, false]
  | 5 => [true, false, false, true, true, false]
  | 6 => [true, false, false, false, true, true]
  | 7 => [true, false, true, false, true, false]
  | 8 => [true, false, true, false, false, true]
  | 9 => [true, false, false, true, false, true]
  | _ => []

/-- One left-side digit code: `L_CODES[digit]` when the parity character is
`L`, else `G_CODES[digit]`. -/
def pick (p : Bool) (d : ℕ) : List ℕ :=
  if p then lCode d else gCode d

/-- The left-data loop of `encode`: `for i, digit in enumerate(digits[1:7])`
appending `L_CODES[digit]` or `G_CODES[digit]` by `parity_pattern[i]`. -/
def encodeLeft : List Bool → List ℕ → List ℕ
  | p :: ps, d :: ds => pick p d ++ encodeLeft ps ds
  | _, _ => []

/-- The right-data loop of `encode`: `for digit in digits[7:13]` appending
`R_CODES[digit]`. -/
def encodeRight (ds : List ℕ) : List ℕ := ds.flatMap rCode

/-- The left 42 modules of `encode`: codes of `digits[1:7]` selected by the
parity pattern of `digits[0]`. -/
def leftBars (digits : List Char) : List ℕ :=
  encodeLeft (parityPattern (charVal (digits.headD ' ')))
    (((digits.drop 1).take 6).map charVal)

/-- The right 42 modules of `encode`: `R_CODES` of `digits[7:13]`. -/
def rightBars (digits : List Char) : List ℕ :=
  encodeRight (((digits.drop 7).take 6).map charVal)

/-- The full 95-module string built by `encode`:
start guard, left data, center guard, right data, end guard. -/
def fullBars (digits : List Char) : List ℕ :=
  startGuard ++ leftBars digits ++ centerGuard ++ rightBars digits ++ endGuard

/-- `center_start` in `encode`: length of `bars_str` when the center guard is
appended. -/
def centerStart (digits : List Char) : ℕ :=
  (startGuard ++ leftBars digits).length

/-- `end_start` in `encode`: length of `bars_str` when the end guard is
appended. -/
def endStart (digits : List Char) : ℕ :=
  (startGuard ++ leftBars digits ++ centerGuard ++ rightBars digits).length

/-- The `BarcodePattern` built by `encode` on validated input. -/
def encodeCore (digits : List Char) : BarcodePattern :=
  { bars := fullBars digits
    module_count := (fullBars digits).length
    guard_positions :=
      [0, 1, 2] ++
      [centerStart digits, centerStart digits + 1, centerStart digits + 2,
       centerStart digits + 3, centerStart digits + 4] ++
      [endStart digits, endStart digits + 1, endStart digits + 2] }

/-- `EAN13Encoder.encode`.  Returns `none` where the Python raises
`ValueError` (wrong length or non-digit input). -/
def encode (digits : List Char) : Option BarcodePattern :=
  if digits.length = 13 ∧ digits.all Char.isDigit then
    some (encodeCore digits)
  else
    none

end EAN13Encoder

namespace AddonEncoder

/-- `START_GUARD = "1011"` of `addon_encoder.py`. -/
def startGuard : List ℕ := [1, 0, 1, 1]

/-- `SEPARATOR = "01"`. -/
def separator : List ℕ := [0, 1]

/-- `AddonEncoder.L_CODES` (same table contents as the EAN-13 encoder's). -/
def lCode : ℕ → List ℕ
  | 0 => [0, 0, 0, 1, 1, 0, 1]
  | 1 => [0, 0, 1, 1, 0, 0, 1]
  | 2 => [0, 0, 1, 0, 0, 1, 1]
  | 3 => [0, 1, 1, 1, 1, 0, 1]
  | 4 => [0, 1, 0, 0, 0, 1, 1]
  | 5 => [0, 1, 1, 0, 0, 0, 1]
  | 6 => [0, 1, 0, 1, 1, 1, 1]
  | 7 => [0, 1, 1, 1, 0, 1, 1]
  | 8 => [0, 1, 1, 0, 1, 1, 1]
  | 9 => [0, 0, 0, 1, 0, 1, 1]
  | _ => []

/-- `AddonEncoder.G_CODES` (same table contents as the EAN-13 encoder's). -/
def gCode : ℕ → List ℕ
  | 0 => [0, 1, 0, 0, 1, 1, 1]
  | 1 => [0, 1, 1, 0, 0, 1, 1]
  | 2 => [0, 0, 1, 1, 0, 1, 1]
  | 3 => [0, 1, 0, 0, 0, 0, 1]
  | 4 => [0, 0, 1, 1, 1, 0, 1]
  | 5 => [0, 1, 1, 1, 0, 0, 1]
  | 6 => [0, 0, 0, 0, 1, 0, 1]
  | 7 => [0, 0, 1, 0, 0, 0, 1]
  | 8 => [0, 0, 0, 1, 0, 0, 1]
  | 9 => [0, 0, 1, 0, 1, 1, 1]
  | _ => []

/-- `EAN2_PARITY`, keyed by the checksum; `true` is `L`, `false` is `G`. -/
def ean2Parity : ℕ → List Bool
  | 0 => [true, true]
  | 1 => [true, false]
  | 2 => [false, true]
  | 3 => [false, false]
  | _ => []

/-- `EAN5_PARITY`, keyed by the checksum; `true` is `L`, `false` is `G`. -/
def ean5Parity : ℕ → List Bool
  | 0 => [false, false, true, true, true]
  | 1 => [false, true, false, true, true]
  | 2 => [false, true, true, false, true]
  | 3 => [false, true, true, true, false]
  | 4 => [true, false, false, true, true]
  | 5 => [true, true, false, false, true]
  | 6 => [true, true, true, false, false]
  | 7 => [true, false, true, false, true]
  | 8 => [true, false, true, true, false]
  | 9 => [true, true, false, true, false]
  | _ => []

/-- Python `int(digits)` for a digit string: fold base-10. -/
def strToNat (s : List Char) : ℕ :=
  s.foldl (fun a c => 10 * a + charVal c) 0

/-- `_calculate_checksum_2`: the 2-digit number mod 4. -/
def checksum2 (s : List Char) : ℕ := strToNat s % 4

/-- The accumulation loop of `_calculate_checksum_5`: positions with even
index (1-indexed odd) weigh 3, the others weigh 9. -/
def weighted5 : ℕ → List Char → ℕ
  | _, [] => 0
  | i, c :: cs =>
      (if i % 2 = 0 then charVal c * 3 else charVal c * 9) + weighted5 (i + 1) cs

/-- `_calculate_checksum_5`: the weighted total mod 10. -/
def checksum5 (s : List Char) : ℕ := weighted5 0 s % 10

/-- One add-on digit code: `L_CODES[digit]` if the parity character is `L`,
else `G_CODES[digit]`. -/
def pick (p : Bool) (d : ℕ) : List ℕ :=
  if p then lCode d else gCode d

/-- The digit loop shared by `encode_2` and `encode_5`: each digit's code by
its parity character, a 2-module separator after every digit but the last. -/
def addonBody : List Bool → List Char → List ℕ
  | p :: ps, c :: cs =>
      pick p (charVal c) ++ (if cs.isEmpty then [] else separator) ++ addonBody ps cs
  | _, _ => []

/-- The `BarcodePattern` built by `encode_2` on validated input. -/
def encode2Core (digits : List Char) : BarcodePattern :=
  let bars := startGuard ++ addonBody (ean2Parity (checksum2 digits)) digits
  { bars := bars, module_count := bars.length, guard_positions := [0, 1, 2, 3] }

/-- `AddonEncoder.encode_2`; `none` where the Python raises `ValueError`. -/
def encode2 (digits : List Char) : Option BarcodePattern :=
  if digits.length = 2 ∧ digits.all Char.isDigit then
    some (encode2Core digits)
  else
    none

/-- The `BarcodePattern` built by `encode_5` on validated input. -/
def encode5Core (digits : List Char) : BarcodePattern :=
  let bars := startGuard ++ addonBody (ean5Parity (checksum5 digits)) digits
  { bars := bars, module_count := bars.length, guard_positions := [0, 1, 2, 3] }

/-- `AddonEncoder.encode_5`; `none` where the Python raises `ValueError`. -/
def encode5 (digits : List Char) : Option BarcodePattern :=
  if digits.length = 5 ∧ digits.all Char.isDigit then
    some (encode5Core digits)
  else
    none

end AddonEncoder

/-- `ValidationResult` dataclass from `validator.py`. -/
structure ValidationResult where
  is_valid : Bool
  error_message : Option String
  deriving Repr, DecidableEq

/-- `ParsedISBN` dataclass from `validator.py`. -/
structure ParsedISBN where
  raw : List Char
  digits : List Char
  formatted : String
  is_valid : Bool
  error_message : Option String
  deriving Repr, DecidableEq

namespace ISBNValidator

/-- `_extract_digits`: `re.sub(r'[^0-9]', '', isbn)` keeps exactly the
characters `0`–`9`. -/
def extractDigits (s : List Char) : List Char := s.filter Char.isDigit

/-- The length-error message of `validate`. -/
def lengthErrMsg (n : ℕ) : String :=
  "ISBN必须是13位数字，当前为" ++ toString n ++ "位"

/-- The prefix-error message of `validate`. -/
def prefixErrMsg : String := "ISBN-13必须以978或979开头"

/-- The checksum-mismatch message of `validate`. -/
def checksumErrMsg (expected actual : Char) : String :=
  "校验位错误：期望" ++ expected.toString ++ "，实际为" ++ actual.toString

/-- The accumulation loop of `calculate_check_digit`: weight 1 at even
index, 3 at odd index. -/
def weightedTotal : ℕ → List Char → ℕ
  | _, [] => 0
  | i, c :: cs =>
      charVal c * (if i % 2 = 0 then 1 else 3) + weightedTotal (i + 1) cs

/-- The check digit character `str((10 - (total % 10)) % 10)`. -/
def checkDigitChar (s : List Char) : Char :=
  Nat.digitChar ((10 - weightedTotal 0 s % 10) % 10)

/-- `ISBNValidator.calculate_check_digit`; `none` where the Python raises
`ValueError` (length ≠ 12 or non-digit input). -/
def calculateCheckDigit (s : List Char) : Option Char :=
  if s.length = 12 ∧ s.all Char.isDigit then
    some (checkDigitChar s)
  else
    none

/-- `ISBNValidator.validate`.  `digits.startswith("978")` is embedded as
`digits.take 3 = ['9','7','8']`, which agrees with Python `startswith` on
every string.  The `none` arm of the `match` mirrors the (unreachable)
propagation of a `ValueError` out of `calculate_check_digit`. -/
def validate (isbn : List Char) : ValidationResult :=
  let digits := extractDigits isbn
  if digits.length ≠ 13 then
    { is_valid := false, error_message := some (lengthErrMsg digits.length) }
  else if ¬(digits.take 3 = ['9', '7', '8'] ∨ digits.take 3 = ['9', '7', '9']) then
    { is_valid := false, error_message := some prefixErrMsg }
  else
    match calculateCheckDigit (digits.take 12) with
    | some expected =>
        if expected ≠ digits.getD 12 ' ' then
          { is_valid := false
            error_message := some (checksumErrMsg expected (digits.getD 12 ' ')) }
        else
          { is_valid := true, error_message := none }
    | none => { is_valid := false, error_message := none }

/-- `_format_isbn`: `ISBN XXX-X-XXXX-XXXX-X`, or `""` if not 13 digits. -/
def formatISBN (digits : List Char) : String :=
  if digits.length ≠ 13 then "" else
    "ISBN " ++ String.mk (digits.take 3) ++ "-" ++
    String.mk [digits.getD 3 ' '] ++ "-" ++
    String.mk ((digits.drop 4).take 4) ++ "-" ++
    String.mk ((digits.drop 8).take 4) ++ "-" ++
    String.mk [digits.getD 12 ' ']

/-- Spec-side formula for C3 (refinement reference, phrased from the spec's
words rather than the code): digits weighted alternately ×1/×3 left to
right, summed over the enumerated positions. -/
def specWeightedSum (s : List Char) : ℕ :=
  (s.enum.map fun p => charVal p.2 * (if p.1 % 2 = 0 then 1 else 3)).sum

/-- `ISBNValidator.parse`. -/
def parse (isbn : List Char) : ParsedISBN :=
  let digits := extractDigits isbn
  let validation := validate isbn
  if validation.is_valid then
    { raw := isbn, digits := digits, formatted := formatISBN digits
      is_valid := true, error_message := none }
  else
    { raw := isbn, digits := digits, formatted := ""
      is_valid := false, error_message := validation.error_message }

end ISBNValidator

/-- Python `int()` applied to a real value: truncation toward zero. -/
def intTrunc (q : ℚ) : ℤ :=
  if q < 0 then -⌊-q⌋ else ⌊q⌋

namespace TIFRenderer

/-- `STANDARD_MODULE_WIDTH_MM = 0.33`. -/
def standardModuleWidthMm : ℚ := 33 / 100

/-- `STANDARD_TOTAL_WIDTH_MM = 37.29`. -/
def standardTotalWidthMm : ℚ := 3729 / 100

/-- `STANDARD_TOTAL_HEIGHT_MM = 25.93`. -/
def standardTotalHeightMm : ℚ := 2593 / 100

/-- `EAN13_MODULES = 95`. -/
def ean13Modules : ℕ := 95

/-- `LEFT_QUIET_ZONE_MODULES = 11`. -/
def leftQuietZoneModules : ℕ := 11

/-- `RIGHT_QUIET_ZONE_MODULES = 7`. -/
def rightQuietZoneModules : ℕ := 7

/-- `ADDON_GAP_MODULES = 7`. -/
def addonGapModules : ℕ := 7

/-- `_mm_to_px`: `int(mm * dpi / 25.4)`. -/
def mmToPx (mm : ℚ) (dpi : ℚ) : ℤ :=
  intTrunc (mm * dpi / (254 / 10))

/-- The sizing-relevant slice of `RenderConfig`: `addon_modules` holds
`addon_pattern.module_count` when an add-on pattern is present. -/
structure SizeConfig where
  dpi : ℚ
  width_mm : Option ℚ
  height_mm : Option ℚ
  width_px : Option ℤ
  height_px : Option ℤ
  lock_aspect_ratio : Bool
  addon_modules : Option ℕ
  deriving Repr, DecidableEq

/-- `default_width_px` in `_calculate_image_size`, including the add-on
width (module count + 7-module gap + 5-module margin) when present. -/
def defaultWidthPx (cfg : SizeConfig) : ℤ :=
  mmToPx standardTotalWidthMm cfg.dpi +
    match cfg.addon_modules with
    | some mc =>
        mmToPx (((mc + addonGapModules + 5 : ℕ) : ℚ) * standardModuleWidthMm) cfg.dpi
    | none => 0

/-- `default_height_px` in `_calculate_image_size`. -/
def defaultHeightPx (cfg : SizeConfig) : ℤ :=
  mmToPx standardTotalHeightMm cfg.dpi

/-- The per-axis resolution step of `_calculate_image_size`: a pixel value
wins, else the millimeter value is converted, else the axis is undetermined. -/
def resolvedWidthPx (cfg : SizeConfig) : Option ℤ :=
  match cfg.width_px with
  | some w => some w
  | none => cfg.width_mm.map (fun m => mmToPx m cfg.dpi)

/-- Same resolution step for the height axis. -/
def resolvedHeightPx (cfg : SizeConfig) : Option ℤ :=
  match cfg.height_px with
  | some h => some h
  | none => cfg.height_mm.map (fun m => mmToPx m cfg.dpi)

/-- `_calculate_image_size`. -/
def calculateImageSize (cfg : SizeConfig) : ℤ × ℤ :=
  let dw := defaultWidthPx cfg
  let dh := defaultHeightPx cfg
  if cfg.lock_aspect_ratio then
    let aspect : ℚ := (dw : ℚ) / (dh : ℚ)
    match resolvedWidthPx cfg, resolvedHeightPx cfg with
    | some w, none => (w, intTrunc ((w : ℚ) / aspect))
    | none, some h => (intTrunc ((h : ℚ) * aspect), h)
    | none, none => (dw, dh)
    | some w, some h => (w, h)
  else
    ((resolvedWidthPx cfg).getD dw, (resolvedHeightPx cfg).getD dh)

/-- The dict returned by `_calculate_barcode_area`. -/
structure BarcodeArea where
  x : ℤ
  y : ℤ
  width : ℤ
  height : ℤ
  module_width : ℚ
  deriving Repr, DecidableEq

/-- `_calculate_barcode_area`.  `hasAddon` is `config.addon_pattern is not
None`; the font/offset fields are the integer `RenderConfig` fields. -/
def calculateBarcodeArea (hasAddon : Bool) (font_size isbn_text_offset_y digits_offset_y : ℤ)
    (height_px : ℤ) (module_width_px : ℚ) (dpi : ℚ) : BarcodeArea :=
  let isbnTextHeight := font_size + isbn_text_offset_y
  let digitsHeight := font_size + digits_offset_y
  let barcodeX0 := intTrunc ((leftQuietZoneModules : ℚ) * module_width_px)
  let barcodeX := if hasAddon then barcodeX0 else barcodeX0 - mmToPx (1 / 2) dpi
  let barcodeY := isbnTextHeight + 5
  { x := barcodeX
    y := barcodeY
    width := intTrunc ((ean13Modules : ℚ) * module_width_px)
    height := height_px - barcodeY - digitsHeight - 5
    module_width := module_width_px }

/-- A pixel rectangle `[x1, y1, x2, y2]` as passed to `draw.rectangle`. -/
structure Rect where
  x1 : ℤ
  y1 : ℤ
  x2 : ℤ
  y2 : ℤ
  deriving Repr, DecidableEq

/-- `_draw_barcode`: the list of rectangles painted for the dark modules, in
index order.  `guard_extension = int(height * 0.1)` is added at the bottom of
a guard bar (the top stays at `area.y`). -/
def drawBarcode (pattern : BarcodePattern) (area : BarcodeArea) : List Rect :=
  let guardExtension := intTrunc ((area.height : ℚ) * (1 / 10))
  pattern.bars.enum.filterMap fun ib =>
    if ib.2 = 1 then
      some { x1 := area.x + intTrunc ((ib.1 : ℚ) * area.module_width)
             y1 := area.y
             x2 := area.x + intTrunc ((ib.1 : ℚ) * area.module_width) + intTrunc area.module_width
             y2 := area.y + area.height +
               (if ib.1 ∈ pattern.guard_positions then guardExtension else 0) }
    else
      none

end TIFRenderer

/-- The Python values that appear in a configuration document handled by
`template_manager.py`. -/
inductive PyVal where
  | vNone
  | vBool (b : Bool)
  | vInt (n : ℤ)
  | vFloat (q : ℚ)
  | vStr (s : String)
  | vList (xs : List PyVal)
  | vTuple (xs : List PyVal)
  | vEnum (name value : String)

namespace TemplateManager

/-- The per-value step of `_serialize_config`: tuples become lists, enum
values (anything with a `value` attribute) become their value string, the
rest is unchanged. -/
def serializeValue : PyVal → PyVal
  | .vTuple xs => .vList xs
  | .vEnum _ v => .vStr v
  | v => v

/-- `_serialize_config` over a key-value document. -/
def serializeConfig (cfg : List (String × PyVal)) : List (String × PyVal) :=
  cfg.map fun kv => (kv.1, serializeValue kv.2)

/-- The two keys whose lists are converted back to tuples on load. -/
def colorKeys : List String := ["foreground_color", "background_color"]

/-- The per-entry step of `_deserialize_config`: under a color key a list
becomes a tuple, anything else is unchanged. -/
def deserializeValue (k : String) (v : PyVal) : PyVal :=
  if k ∈ colorKeys then
    match v with
    | .vList xs => .vTuple xs
    | v => v
  else
    v

/-- `_deserialize_config` over a key-value document. -/
def deserializeConfig (cfg : List (String × PyVal)) : List (String × PyVal) :=
  cfg.map fun kv => (kv.1, deserializeValue kv.1 kv.2)

/-- Scalar (JSON-atomic) Python values: `None`, bools, ints, floats,
strings. -/
def scalarOk : PyVal → Bool
  | .vNone => true
  | .vBool _ => true
  | .vInt _ => true
  | .vFloat _ => true
  | .vStr _ => true
  | _ => false

/-- Tuple test, `isinstance(value, tuple)`. -/
def isTuple : PyVal → Bool
  | .vTuple _ => true
  | _ => false

end TemplateManager

/-! ## Shared helper lemmas -/

theorem charVal_lt_ten {c : Char} (h : c.isDigit = true) : charVal c < 10 := by
  simp only [Char.isDigit, Bool.and_eq_true, decide_eq_true_eq] at h
  obtain ⟨h1, h2⟩ := h
  have h2' : c.toNat ≤ 57 := h2
  unfold charVal
  omega

theorem drop_app_of_len {α : Type} {xs : List α} (ys : List α) {n : ℕ} (m : ℕ)
    (h : xs.length = n) : (xs ++ ys).drop (n + m) = ys.drop m := by
  subst h
  exact List.drop_append m

theorem slice_at {pre mid post : List ℕ} {n k : ℕ} (hpre : pre.length = n)
    (hmid : mid.length = k) : ((pre ++ (mid ++ post)).drop n).take k = mid := by
  rw [List.drop_left' hpre, List.take_left' hmid]

namespace EAN13Encoder

theorem lCode_length {d : ℕ} (h : d < 10) : (lCode d).length = 7 := by
  interval_cases d <;> rfl

theorem gCode_length {d : ℕ} (h : d < 10) : (gCode d).length = 7 := by
  interval_cases d <;> rfl

theorem rCode_length {d : ℕ} (h : d < 10) : (rCode d).length = 7 := by
  interval_cases d <;> rfl

theorem pick_length {p : Bool} {d : ℕ} (h : d < 10) : (pick p d).length = 7 := by
  cases p <;> simp [pick, lCode_length h, gCode_length h]

theorem parityPattern_length {d : ℕ} (h : d < 10) : (parityPattern d).length = 6 := by
  interval_cases d <;> rfl

theorem lCode_binary {d : ℕ} (h : d < 10) : ∀ b ∈ lCode d, b = 0 ∨ b = 1 := by
  interval_cases d <;> decide

theorem gCode_binary {d : ℕ} (h : d < 10) : ∀ b ∈ gCode d, b = 0 ∨ b = 1 := by
  interval_cases d <;> decide

theorem rCode_binary {d : ℕ} (h : d < 10) : ∀ b ∈ rCode d, b = 0 ∨ b = 1 := by
  interval_cases d <;> decide

theorem pick_binary {p : Bool} {d : ℕ} (h : d < 10) : ∀ b ∈ pick p d, b = 0 ∨ b = 1 := by
  cases p <;> simpa [pick] using fun b => by
    first
      | exact fun hb => gCode_binary h b hb
      | exact fun hb => lCode_binary h b hb

theorem encodeLeft_length (ps : List Bool) (ds : List ℕ) (h : ps.length = ds.length)
    (hd : ∀ d ∈ ds, d < 10) : (encodeLeft ps ds).length = 7 * ds.length := by
  induction ps generalizing ds with
  | nil =>
      cases ds with
      | nil => simp [encodeLeft]
      | cons d ds => simp at h
  | cons p ps ih =>
      cases ds with
      | nil => simp at h
      | cons d ds =>
          simp only [encodeLeft, List.length_append, List.length_cons]
          rw [pick_length (hd d (by simp)), ih ds (by simpa using h)
            (fun x hx => hd x (by simp [hx]))]
          ring

theorem encodeRight_length (ds : List ℕ) (hd : ∀ d ∈ ds, d < 10) :
    (encodeRight ds).length = 7 * ds.length := by
  induction ds with
  | nil => simp [encodeRight]
  | cons d ds ih =>
      simp only [encodeRight, List.flatMap_cons, List.length_append, List.length_cons]
      rw [rCode_length (hd d (by simp))]
      have := ih (fun x hx => hd x (by simp [hx]))
      simp only [encodeRight] at this
      rw [this]
      ring

theorem encodeLeft_binary (ps : List Bool) (ds : List ℕ) (hd : ∀ d ∈ ds, d < 10) :
    ∀ b ∈ encodeLeft ps ds, b = 0 ∨ b = 1 := by
  induction ps generalizing ds with
  | nil => cases ds <;> simp [encodeLeft]
  | cons p ps ih =>
      cases ds with
      | nil => simp [encodeLeft]
      | cons d ds =>
          intro b hb
          simp only [encodeLeft, List.mem_append] at hb
          rcases hb with hb | hb
          · exact pick_binary (hd d (by simp)) b hb
          · exact ih ds (fun x hx => hd x (by simp [hx])) b hb

theorem encodeRight_binary (ds : List ℕ) (hd : ∀ d ∈ ds, d < 10) :
    ∀ b ∈ encodeRight ds, b = 0 ∨ b = 1 := by
  induction ds with
  | nil => simp [encodeRight]
  | cons d ds ih =>
      intro b hb
      simp only [encodeRight, List.flatMap_cons, List.mem_append] at hb
      rcases hb with hb | hb
      · exact rCode_binary (hd d (by simp)) b hb
      · exact ih (fun x hx => hd x (by simp [hx])) b hb

theorem encode_inv {ds : List Char} {pat : BarcodePattern}
    (h : encode ds = some pat) :
    ds.length = 13 ∧ (∀ c ∈ ds, c.isDigit = true) ∧ pat = encodeCore ds := by
  unfold encode at h
  split_ifs at h with hc
  obtain ⟨h1, h2⟩ := hc
  exact ⟨h1, by simpa [List.all_eq_true] using h2, (Option.some.inj h).symm⟩

theorem mapped_left_lt_ten {ds : List Char} (hd : ∀ c ∈ ds, c.isDigit = true) :
    ∀ d ∈ ((ds.drop 1).take 6).map charVal, d < 10 := by
  intro d hdm
  obtain ⟨c, hc, rfl⟩ := List.mem_map.1 hdm
  exact charVal_lt_ten (hd c (List.mem_of_mem_drop (List.mem_of_mem_take hc)))

theorem mapped_right_lt_ten {ds : List Char} (hd : ∀ c ∈ ds, c.isDigit = true) :
    ∀ d ∈ ((ds.drop 7).take 6).map charVal, d < 10 := by
  intro d hdm
  obtain ⟨c, hc, rfl⟩ := List.mem_map.1 hdm
  exact charVal_lt_ten (hd c (List.mem_of_mem_drop (List.mem_of_mem_take hc)))

theorem head_charVal_lt_ten {ds : List Char} (h13 : ds.length = 13)
    (hd : ∀ c ∈ ds, c.isDigit = true) : charVal (ds.headD ' ') < 10 := by
  cases ds with
  | nil => simp at h13
  | cons a l => exact charVal_lt_ten (hd a (by simp))

theorem leftBars_length {ds : List Char} (h13 : ds.length = 13)
    (hd : ∀ c ∈ ds, c.isDigit = true) : (leftBars ds).length = 42 := by
  unfold leftBars
  have hm : (((ds.drop 1).take 6).map charVal).length = 6 := by
    simp [h13]
  rw [encodeLeft_length _ _ (by rw [parityPattern_length (head_charVal_lt_ten h13 hd), hm])
    (mapped_left_lt_ten hd), hm]

theorem rightBars_length {ds : List Char} (h13 : ds.length = 13)
    (hd : ∀ c ∈ ds, c.isDigit = true) : (rightBars ds).length = 42 := by
  unfold rightBars
  have hm : (((ds.drop 7).take 6).map charVal).length = 6 := by
    simp [h13]
  rw [encodeRight_length _ (mapped_right_lt_ten hd), hm]

end EAN13Encoder

namespace EAN13Encoder

theorem leftBars_binary {ds : List Char} (hd : ∀ c ∈ ds, c.isDigit = true) :
    ∀ b ∈ leftBars ds, b = 0 ∨ b = 1 :=
  encodeLeft_binary _ _ (mapped_left_lt_ten hd)

theorem rightBars_binary {ds : List Char} (hd : ∀ c ∈ ds, c.isDigit = true) :
    ∀ b ∈ rightBars ds, b = 0 ∨ b = 1 :=
  encodeRight_binary _ (mapped_right_lt_ten hd)

/-- C1: for every 13-character digit string, `EAN13Encoder.encode` returns a
`BarcodePattern` with `module_count = 95`, bars `[0:3] = [1,0,1]`,
bars `[45:50] = [0,1,0,1,0]`, bars `[92:95] = [1,0,1]`, every element of
`bars` in `{0,1}`, and `guard_positions` exactly the three guard index ranges
`{0,1,2} ∪ {45,…,49} ∪ {92,93,94}`. -/
theorem claim_C1 (ds : List Char) (pat : BarcodePattern)
    (h : encode ds = some pat) :
    pat.module_count = 95 ∧
    pat.bars.length = 95 ∧
    pat.bars.take 3 = [1, 0, 1] ∧
    (pat.bars.drop 45).take 5 = [0, 1, 0, 1, 0] ∧
    pat.bars.drop 92 = [1, 0, 1] ∧
    (∀ b ∈ pat.bars, b = 0 ∨ b = 1) ∧
    pat.guard_positions = [0, 1, 2, 45, 46, 47, 48, 49, 92, 93, 94] := by
  obtain ⟨h13, hd, rfl⟩ := encode_inv h
  have hL := leftBars_length h13 hd
  have hR := rightBars_length h13 hd
  have hbars : (encodeCore ds).bars
      = startGuard ++ (leftBars ds ++ (centerGuard ++ (rightBars ds ++ endGuard))) := by
    simp [encodeCore, fullBars, List.append_assoc]
  have hlen : (fullBars ds).length = 95 := by
    simp [fullBars, List.length_append, hL, hR, startGuard, centerGuard, endGuard]
  refine ⟨?_, ?_, ?_, ?_, ?_, ?_, ?_⟩
  · simpa [encodeCore] using hlen
  · simpa [encodeCore] using hlen
  · rw [hbars, List.take_left' (show startGuard.length = 3 from rfl)]
    rfl
  · have h2 : (encodeCore ds).bars
        = (startGuard ++ leftBars ds) ++ (centerGuard ++ (rightBars ds ++ endGuard)) := by
      simp [encodeCore, fullBars, List.append_assoc]
    rw [h2, List.drop_left' (by simp [startGuard, hL]),
      List.take_left' (show centerGuard.length = 5 from rfl)]
    rfl
  · have h2 : (encodeCore ds).bars
        = (startGuard ++ leftBars ds ++ centerGuard ++ rightBars ds) ++ endGuard := by
      simp [encodeCore, fullBars, List.append_assoc]
    rw [h2, List.drop_left' (by simp [startGuard, centerGuard, hL, hR])]
    rfl
  · intro b hb
    rw [hbars] at hb
    simp only [List.mem_append] at hb
    rcases hb with hb | hb | hb | hb | hb
    · simp [startGuard] at hb
      tauto
    · exact leftBars_binary hd b hb
    · simp [centerGuard] at hb
      tauto
    · exact rightBars_binary hd b hb
    · simp [endGuard] at hb
      tauto
  · have hc : centerStart ds = 45 := by
      simp [centerStart, List.length_append, hL, startGuard]
    have he : endStart ds = 92 := by
      simp [endStart, List.length_append, hL, hR, startGuard, centerGuard]
    simp only [encodeCore, hc, he]
    rfl

/-- Witness for C1 at the identifier `9787564922351`. -/
theorem claim_C1_witness :
    encode ['9', '7', '8', '7', '5', '6', '4', '9', '2', '2', '3', '5', '1']
      = some (encodeCore ['9', '7', '8', '7', '5', '6', '4', '9', '2', '2', '3', '5', '1']) ∧
    (encodeCore ['9', '7', '8', '7', '5', '6', '4', '9', '2', '2', '3', '5', '1']).module_count
      = 95 := by
  have henc : encode ['9', '7', '8', '7', '5', '6', '4', '9', '2', '2', '3', '5', '1']
      = some (encodeCore ['9', '7', '8', '7', '5', '6', '4', '9', '2', '2', '3', '5', '1']) := by
    rw [encode, if_pos (by decide)]
  exact ⟨henc, (claim_C1 _ _ henc).1⟩

end EAN13Encoder

namespace EAN13Encoder

theorem encodeLeft_drop_append (ps : List Bool) (ds : List ℕ) (tail : List ℕ) (i : ℕ)
    (hips : i ≤ ps.length) (hids : i ≤ ds.length) (hd : ∀ d ∈ ds, d < 10) :
    (encodeLeft ps ds ++ tail).drop (7 * i)
      = encodeLeft (ps.drop i) (ds.drop i) ++ tail := by
  induction i generalizing ps ds with
  | zero => simp
  | succ n ih =>
      cases ps with
      | nil => simp at hips
      | cons p ps =>
          cases ds with
          | nil => simp at hids
          | cons d ds =>
              have h7 : (pick p d).length = 7 := pick_length (hd d (by simp))
              have hsplit : encodeLeft (p :: ps) (d :: ds) ++ tail
                  = pick p d ++ (encodeLeft ps ds ++ tail) := by
                simp [encodeLeft, List.append_assoc]
              rw [hsplit, show 7 * (n + 1) = 7 + 7 * n by ring,
                drop_app_of_len _ _ h7]
              simpa using ih ps ds (by simpa using hips) (by simpa using hids)
                (fun x hx => hd x (by simp [hx]))

theorem encodeRight_drop_append (ds : List ℕ) (tail : List ℕ) (i : ℕ)
    (hi : i ≤ ds.length) (hd : ∀ d ∈ ds, d < 10) :
    (encodeRight ds ++ tail).drop (7 * i) = encodeRight (ds.drop i) ++ tail := by
  induction i generalizing ds with
  | zero => simp
  | succ n ih =>
      cases ds with
      | nil => simp at hi
      | cons d ds =>
          have h7 : (rCode d).length = 7 := rCode_length (hd d (by simp))
          have hsplit : encodeRight (d :: ds) ++ tail
              = rCode d ++ (encodeRight ds ++ tail) := by
            simp [encodeRight, List.append_assoc]
          rw [hsplit, show 7 * (n + 1) = 7 + 7 * n by ring,
            drop_app_of_len _ _ h7]
          simpa using ih ds (by simpa using hi) (fun x hx => hd x (by simp [hx]))

theorem leftGroup (ps : List Bool) (ds : List ℕ) (tail : List ℕ) (i : ℕ)
    (hips : i < ps.length) (hids : i < ds.length) (hd : ∀ d ∈ ds, d < 10) :
    ((encodeLeft ps ds ++ tail).drop (7 * i)).take 7
      = pick (ps.getD i true) (ds.getD i 0) := by
  rw [encodeLeft_drop_append ps ds tail i (le_of_lt hips) (le_of_lt hids) hd,
    List.drop_eq_getElem_cons hips, List.drop_eq_getElem_cons hids]
  have hsplit : encodeLeft (ps[i] :: ps.drop (i + 1)) (ds[i] :: ds.drop (i + 1)) ++ tail
      = pick ps[i] ds[i] ++ (encodeLeft (ps.drop (i + 1)) (ds.drop (i + 1)) ++ tail) := by
    simp [encodeLeft, List.append_assoc]
  rw [hsplit, List.take_left' (pick_length (hd _ (ds.getElem_mem hids))),
    List.getD_eq_getElem _ _ hips, List.getD_eq_getElem _ _ hids]

theorem rightGroup (ds : List ℕ) (tail : List ℕ) (i : ℕ)
    (hi : i < ds.length) (hd : ∀ d ∈ ds, d < 10) :
    ((encodeRight ds ++ tail).drop (7 * i)).take 7 = rCode (ds.getD i 0) := by
  rw [encodeRight_drop_append ds tail i (le_of_lt hi) hd,
    List.drop_eq_getElem_cons hi]
  have hsplit : encodeRight (ds[i] :: ds.drop (i + 1)) ++ tail
      = rCode ds[i] ++ (encodeRight (ds.drop (i + 1)) ++ tail) := by
    simp only [encodeRight, List.flatMap_cons, List.append_assoc]
  rw [hsplit, List.take_left' (rCode_length (hd _ (ds.getElem_mem hi))),
    List.getD_eq_getElem _ _ hi]

theorem lCode_inj : ∀ a < 10, ∀ b < 10, lCode a = lCode b → a = b := by decide

theorem gCode_inj : ∀ a < 10, ∀ b < 10, gCode a = gCode b → a = b := by decide

theorem rCode_inj : ∀ a < 10, ∀ b < 10, rCode a = rCode b → a = b := by decide

theorem pick_inj {p : Bool} {a b : ℕ} (ha : a < 10) (hb : b < 10)
    (h : pick p a = pick p b) : a = b := by
  cases p
  · exact gCode_inj a ha b hb (by simpa [pick] using h)
  · exact lCode_inj a ha b hb (by simpa [pick] using h)

theorem headD_eq_getD (ds : List Char) : ds.headD ' ' = ds.getD 0 ' ' := by
  cases ds <;> simp

theorem mapped_left_getD {ds : List Char} (h13 : ds.length = 13) (i : ℕ) (hi : i < 6) :
    (((ds.drop 1).take 6).map charVal).getD i 0 = charVal (ds.getD (1 + i) ' ') := by
  rw [Nat.add_comm 1 i]
  have h1 : i < (((ds.drop 1).take 6).map charVal).length := by
    simp [h13]
    omega
  have h2 : i + 1 < ds.length := by omega
  rw [List.getD_eq_getElem _ _ h1, List.getD_eq_getElem _ _ h2]
  simp [List.getElem_map, List.getElem_take, List.getElem_drop]

theorem mapped_right_getD {ds : List Char} (h13 : ds.length = 13) (i : ℕ) (hi : i < 6) :
    (((ds.drop 7).take 6).map charVal).getD i 0 = charVal (ds.getD (7 + i) ' ') := by
  have h1 : i < (((ds.drop 7).take 6).map charVal).length := by
    simp [h13]
    omega
  have h2 : 7 + i < ds.length := by omega
  rw [List.getD_eq_getElem _ _ h1, List.getD_eq_getElem _ _ h2]
  simp [List.getElem_map, List.getElem_take, List.getElem_drop]

end EAN13Encoder

namespace EAN13Encoder

/-- C2: in the pattern of a 13-digit string `d`, bars `[3:45]` split into six
7-module groups, group `i` being the L code of `d[1+i]` when character `i` of
the parity pattern selected by `d[0]` is `L` and the G code otherwise; bars
`[50:92]` split into six 7-module groups equal to the R codes of `d[7..12]`;
each table is injective on digits, so the halves decode back to `d[1:7]` and
`d[7:13]`. -/
theorem claim_C2 (ds : List Char) (pat : BarcodePattern) (h : encode ds = some pat) :
    (∀ i : Fin 6,
      (pat.bars.drop (3 + 7 * i.val)).take 7
        = pick ((parityPattern (charVal (ds.getD 0 ' '))).getD i.val true)
            (charVal (ds.getD (1 + i.val) ' '))) ∧
    (∀ i : Fin 6,
      (pat.bars.drop (50 + 7 * i.val)).take 7
        = rCode (charVal (ds.getD (7 + i.val) ' '))) ∧
    (∀ a < 10, ∀ b < 10, lCode a = lCode b → a = b) ∧
    (∀ a < 10, ∀ b < 10, gCode a = gCode b → a = b) ∧
    (∀ a < 10, ∀ b < 10, rCode a = rCode b → a = b) ∧
    (∀ i : Fin 6, ∀ e < 10,
      pick ((parityPattern (charVal (ds.getD 0 ' '))).getD i.val true) e
          = (pat.bars.drop (3 + 7 * i.val)).take 7
        → e = charVal (ds.getD (1 + i.val) ' ')) ∧
    (∀ i : Fin 6, ∀ e < 10,
      rCode e = (pat.bars.drop (50 + 7 * i.val)).take 7
        → e = charVal (ds.getD (7 + i.val) ' ')) := by
  obtain ⟨h13, hd, rfl⟩ := encode_inv h
  have hL := leftBars_length h13 hd
  have hd0 : charVal (ds.getD 0 ' ') < 10 := by
    rw [← headD_eq_getD]
    exact head_charVal_lt_ten h13 hd
  have hp6 : (parityPattern (charVal (ds.getD 0 ' '))).length = 6 :=
    parityPattern_length hd0
  have hmapL := mapped_left_lt_ten hd
  have hmapR := mapped_right_lt_ten hd
  have hlenL : (((ds.drop 1).take 6).map charVal).length = 6 := by
    simp [h13]
  have hlenR : (((ds.drop 7).take 6).map charVal).length = 6 := by
    simp [h13]
  have hbars : (encodeCore ds).bars
      = startGuard ++ (leftBars ds ++ (centerGuard ++ (rightBars ds ++ endGuard))) := by
    simp [encodeCore, fullBars, List.append_assoc]
  have hleft : ∀ i : Fin 6,
      ((encodeCore ds).bars.drop (3 + 7 * i.val)).take 7
        = pick ((parityPattern (charVal (ds.getD 0 ' '))).getD i.val true)
            (charVal (ds.getD (1 + i.val) ' ')) := by
    intro i
    rw [hbars, drop_app_of_len _ (7 * i.val) (show startGuard.length = 3 from rfl)]
    simp only [leftBars, headD_eq_getD]
    rw [leftGroup _ _ _ _ (by rw [hp6]; exact i.isLt) (by rw [hlenL]; exact i.isLt) hmapL,
      mapped_left_getD h13 i.val i.isLt]
  have hright : ∀ i : Fin 6,
      ((encodeCore ds).bars.drop (50 + 7 * i.val)).take 7
        = rCode (charVal (ds.getD (7 + i.val) ' ')) := by
    intro i
    have h2 : (encodeCore ds).bars
        = (startGuard ++ leftBars ds ++ centerGuard) ++ (rightBars ds ++ endGuard) := by
      simp [encodeCore, fullBars, List.append_assoc]
    rw [h2, drop_app_of_len _ (7 * i.val) (by simp [startGuard, centerGuard, hL])]
    simp only [rightBars]
    rw [rightGroup _ _ _ (by rw [hlenR]; exact i.isLt) hmapR,
      mapped_right_getD h13 i.val i.isLt]
  refine ⟨hleft, hright, lCode_inj, gCode_inj, rCode_inj, ?_, ?_⟩
  · intro i e he heq
    have hib : 1 + i.val < ds.length := by
      have := i.isLt
      omega
    have hdig : charVal (ds.getD (1 + i.val) ' ') < 10 := by
      rw [List.getD_eq_getElem _ _ hib]
      exact charVal_lt_ten (hd _ (ds.getElem_mem hib))
    exact pick_inj he hdig (heq.trans (hleft i))
  · intro i e he heq
    have hib : 7 + i.val < ds.length := by
      have := i.isLt
      omega
    have hdig : charVal (ds.getD (7 + i.val) ' ') < 10 := by
      rw [List.getD_eq_getElem _ _ hib]
      exact charVal_lt_ten (hd _ (ds.getElem_mem hib))
    exact rCode_inj e he _ hdig (heq.trans (hright i))

/-- Witness for C2 at the identifier `9787564922351`, group 0 of the left
half. -/
theorem claim_C2_witness :
    encode ['9', '7', '8', '7', '5', '6', '4', '9', '2', '2', '3', '5', '1']
      = some (encodeCore ['9', '7', '8', '7', '5', '6', '4', '9', '2', '2', '3', '5', '1']) ∧
    (((encodeCore ['9', '7', '8', '7', '5', '6', '4', '9', '2', '2', '3', '5', '1']).bars.drop
        (3 + 7 * (0 : Fin 6).val)).take 7
      = pick ((parityPattern (charVal
          (['9', '7', '8', '7', '5', '6', '4', '9', '2', '2', '3', '5', '1'].getD 0 ' '))).getD
            (0 : Fin 6).val true)
          (charVal
            (['9', '7', '8', '7', '5', '6', '4', '9', '2', '2', '3', '5', '1'].getD
              (1 + (0 : Fin 6).val) ' '))) := by
  have henc : encode ['9', '7', '8', '7', '5', '6', '4', '9', '2', '2', '3', '5', '1']
      = some (encodeCore ['9', '7', '8', '7', '5', '6', '4', '9', '2', '2', '3', '5', '1']) := by
    rw [encode, if_pos (by decide)]
  exact ⟨henc, (claim_C2 _ _ henc).1 0⟩

end EAN13Encoder

namespace AddonEncoder

theorem addon_lCode_length {d : ℕ} (h : d < 10) : (lCode d).length = 7 := by
  interval_cases d <;> rfl

theorem addon_gCode_length {d : ℕ} (h : d < 10) : (gCode d).length = 7 := by
  interval_cases d <;> rfl

theorem addon_pick_length {p : Bool} {d : ℕ} (h : d < 10) : (pick p d).length = 7 := by
  cases p <;> simp [pick, addon_lCode_length h, addon_gCode_length h]

theorem checksum2_lt (s : List Char) : checksum2 s < 4 :=
  Nat.mod_lt _ (by norm_num)

theorem checksum5_lt (s : List Char) : checksum5 s < 10 :=
  Nat.mod_lt _ (by norm_num)

theorem ean2Parity_length {k : ℕ} (h : k < 4) : (ean2Parity k).length = 2 := by
  interval_cases k <;> rfl

theorem ean5Parity_length {k : ℕ} (h : k < 10) : (ean5Parity k).length = 5 := by
  interval_cases k <;> rfl

theorem addonBody_length (ps : List Bool) (ds : List Char) (h : ps.length = ds.length)
    (hd : ∀ c ∈ ds, c.isDigit = true) :
    (addonBody ps ds).length = if ds.length = 0 then 0 else 9 * ds.length - 2 := by
  induction ds generalizing ps with
  | nil =>
      cases ps with
      | nil => simp [addonBody]
      | cons p ps => simp at h
  | cons c cs ih =>
      cases ps with
      | nil => simp at h
      | cons p ps =>
          have hdig : charVal c < 10 := charVal_lt_ten (hd c (by simp))
          have hrec := ih ps (by simpa using h) (fun x hx => hd x (by simp [hx]))
          cases cs with
          | nil =>
              simp only [addonBody] at hrec ⊢
              simp [addon_pick_length hdig]
          | cons c2 cs2 =>
              have hsplit : addonBody (p :: ps) (c :: c2 :: cs2)
                  = pick p (charVal c) ++ (separator ++ addonBody ps (c2 :: cs2)) := by
                simp [addonBody]
              rw [hsplit]
              simp only [List.length_append, addon_pick_length hdig, separator,
                List.length_cons, List.length_nil]
              rw [hrec, if_neg (by simp), if_neg (by simp)]
              simp only [List.length_cons]
              omega

theorem addonBody_drop (ps : List Bool) (ds : List Char) (i : ℕ)
    (hips : i < ps.length) (hids : i < ds.length) (hd : ∀ c ∈ ds, c.isDigit = true) :
    (addonBody ps ds).drop (9 * i) = addonBody (ps.drop i) (ds.drop i) := by
  induction i generalizing ps ds with
  | zero => simp
  | succ n ih =>
      cases ps with
      | nil => simp at hips
      | cons p ps =>
          cases ds with
          | nil => simp at hids
          | cons c cs =>
              have hne : cs.isEmpty = false := by
                cases cs with
                | nil => simp at hids
                | cons a b => rfl
              have hdig : charVal c < 10 := charVal_lt_ten (hd c (by simp))
              have hsplit : addonBody (p :: ps) (c :: cs)
                  = pick p (charVal c) ++ (separator ++ addonBody ps cs) := by
                simp [addonBody, hne]
              rw [hsplit, show 9 * (n + 1) = 7 + (2 + 9 * n) by ring,
                drop_app_of_len _ _ (addon_pick_length hdig),
                drop_app_of_len _ _ (show separator.length = 2 from rfl)]
              exact ih ps cs (by simpa using hips) (by simpa using hids)
                (fun x hx => hd x (by simp [hx]))

theorem addonGroup (ps : List Bool) (ds : List Char) (i : ℕ)
    (hips : i < ps.length) (hids : i < ds.length) (hd : ∀ c ∈ ds, c.isDigit = true) :
    ((addonBody ps ds).drop (9 * i)).take 7
      = pick (ps.getD i true) (charVal (ds.getD i ' ')) := by
  rw [addonBody_drop ps ds i hips hids hd,
    List.drop_eq_getElem_cons hips, List.drop_eq_getElem_cons hids]
  have hdig : charVal ds[i] < 10 := charVal_lt_ten (hd _ (ds.getElem_mem hids))
  have hsplit : addonBody (ps[i] :: ps.drop (i + 1)) (ds[i] :: ds.drop (i + 1))
      = pick ps[i] (charVal ds[i]) ++
        ((if (ds.drop (i + 1)).isEmpty then [] else separator) ++
          addonBody (ps.drop (i + 1)) (ds.drop (i + 1))) := by
    simp [addonBody]
  rw [hsplit, List.take_left' (addon_pick_length hdig),
    List.getD_eq_getElem _ _ hips, List.getD_eq_getElem _ _ hids]

theorem addonSep (ps : List Bool) (ds : List Char) (i : ℕ)
    (hips : i < ps.length) (hids : i + 1 < ds.length) (hd : ∀ c ∈ ds, c.isDigit = true) :
    ((addonBody ps ds).drop (9 * i + 7)).take 2 = separator := by
  have hdrop : (addonBody ps ds).drop (9 * i + 7)
      = ((addonBody ps ds).drop (9 * i)).drop 7 := by
    rw [List.drop_drop]
  rw [hdrop, addonBody_drop ps ds i hips (by omega) hd,
    List.drop_eq_getElem_cons hips, List.drop_eq_getElem_cons (show i < ds.length by omega)]
  have hne : (ds.drop (i + 1)).isEmpty = false := by
    have : (ds.drop (i + 1)).length ≠ 0 := by
      simp
      omega
    cases hE : ds.drop (i + 1) with
    | nil => rw [hE] at this; simp at this
    | cons a b => rfl
  have hdig : charVal ds[i] < 10 := charVal_lt_ten (hd _ (ds.getElem_mem (by omega)))
  have hsplit : addonBody (ps[i] :: ps.drop (i + 1)) (ds[i] :: ds.drop (i + 1))
      = pick ps[i] (charVal ds[i]) ++
        (separator ++ addonBody (ps.drop (i + 1)) (ds.drop (i + 1))) := by
    simp [addonBody, hne]
  rw [hsplit, show (7 : ℕ) = 7 + 0 from rfl, drop_app_of_len _ _ (addon_pick_length hdig)]
  simp only [List.drop_zero]
  rw [List.take_left' (show separator.length = 2 from rfl)]

theorem encode2_inv {ds : List Char} {pat : BarcodePattern}
    (h : encode2 ds = some pat) :
    ds.length = 2 ∧ (∀ c ∈ ds, c.isDigit = true) ∧ pat = encode2Core ds := by
  unfold encode2 at h
  split_ifs at h with hc
  obtain ⟨h1, h2⟩ := hc
  exact ⟨h1, by simpa [List.all_eq_true] using h2, (Option.some.inj h).symm⟩

theorem encode5_inv {ds : List Char} {pat : BarcodePattern}
    (h : encode5 ds = some pat) :
    ds.length = 5 ∧ (∀ c ∈ ds, c.isDigit = true) ∧ pat = encode5Core ds := by
  unfold encode5 at h
  split_ifs at h with hc
  obtain ⟨h1, h2⟩ := hc
  exact ⟨h1, by simpa [List.all_eq_true] using h2, (Option.some.inj h).symm⟩

end AddonEncoder

namespace AddonEncoder

/-- C4: `encode_2` yields exactly 20 modules and `encode_5` exactly 47, both
beginning `[1,0,1,1]` with `guard_positions = [0,1,2,3]`; each digit's
7-module code is chosen L or G by the parity string indexed by the checksum
(the 2-digit number mod 4 for `encode_2`; 1-indexed odd positions ×3 plus
even ×9, mod 10, for `encode_5`), with a 2-module `01` separator between
digits but never after the last digit. -/
theorem claim_C4 :
    (∀ (ds : List Char) (pat : BarcodePattern), encode2 ds = some pat →
      pat.module_count = 20 ∧
      pat.bars.length = 20 ∧
      pat.bars.take 4 = [1, 0, 1, 1] ∧
      pat.guard_positions = [0, 1, 2, 3] ∧
      (∀ i : Fin 2,
        (pat.bars.drop (4 + 9 * i.val)).take 7
          = pick ((ean2Parity (checksum2 ds)).getD i.val true)
              (charVal (ds.getD i.val ' '))) ∧
      (pat.bars.drop 11).take 2 = separator) ∧
    (∀ (ds : List Char) (pat : BarcodePattern), encode5 ds = some pat →
      pat.module_count = 47 ∧
      pat.bars.length = 47 ∧
      pat.bars.take 4 = [1, 0, 1, 1] ∧
      pat.guard_positions = [0, 1, 2, 3] ∧
      (∀ i : Fin 5,
        (pat.bars.drop (4 + 9 * i.val)).take 7
          = pick ((ean5Parity (checksum5 ds)).getD i.val true)
              (charVal (ds.getD i.val ' '))) ∧
      (∀ i : Fin 4, (pat.bars.drop (11 + 9 * i.val)).take 2 = separator)) := by
  constructor
  · intro ds pat h
    obtain ⟨h2, hd, rfl⟩ := encode2_inv h
    have hp2 : (ean2Parity (checksum2 ds)).length = 2 := ean2Parity_length (checksum2_lt ds)
    have hbody : (addonBody (ean2Parity (checksum2 ds)) ds).length = 16 := by
      rw [addonBody_length _ _ (by rw [hp2, h2]) hd, h2]
      norm_num
    have hbars : (encode2Core ds).bars
        = startGuard ++ addonBody (ean2Parity (checksum2 ds)) ds := rfl
    refine ⟨?_, ?_, ?_, rfl, ?_, ?_⟩
    · show (startGuard ++ addonBody (ean2Parity (checksum2 ds)) ds).length = 20
      simp [startGuard, hbody]
    · rw [hbars]
      simp [startGuard, hbody]
    · rw [hbars, List.take_left' (show startGuard.length = 4 from rfl)]
      rfl
    · intro i
      rw [hbars, drop_app_of_len _ (9 * i.val) (show startGuard.length = 4 from rfl)]
      exact addonGroup _ _ _ (by rw [hp2]; exact i.isLt) (by rw [h2]; exact i.isLt) hd
    · rw [hbars, show (11 : ℕ) = 4 + 7 from rfl,
        drop_app_of_len _ 7 (show startGuard.length = 4 from rfl)]
      have hs := addonSep (ean2Parity (checksum2 ds)) ds 0
        (by rw [hp2]; norm_num) (by rw [h2]; norm_num) hd
      simpa using hs
  · intro ds pat h
    obtain ⟨h5, hd, rfl⟩ := encode5_inv h
    have hp5 : (ean5Parity (checksum5 ds)).length = 5 := ean5Parity_length (checksum5_lt ds)
    have hbody : (addonBody (ean5Parity (checksum5 ds)) ds).length = 43 := by
      rw [addonBody_length _ _ (by rw [hp5, h5]) hd, h5]
      norm_num
    have hbars : (encode5Core ds).bars
        = startGuard ++ addonBody (ean5Parity (checksum5 ds)) ds := rfl
    refine ⟨?_, ?_, ?_, rfl, ?_, ?_⟩
    · show (startGuard ++ addonBody (ean5Parity (checksum5 ds)) ds).length = 47
      simp [startGuard, hbody]
    · rw [hbars]
      simp [startGuard, hbody]
    · rw [hbars, List.take_left' (show startGuard.length = 4 from rfl)]
      rfl
    · intro i
      rw [hbars, drop_app_of_len _ (9 * i.val) (show startGuard.length = 4 from rfl)]
      exact addonGroup _ _ _ (by rw [hp5]; exact i.isLt) (by rw [h5]; exact i.isLt) hd
    · intro i
      rw [hbars, show 11 + 9 * i.val = 4 + (9 * i.val + 7) by ring,
        drop_app_of_len _ (9 * i.val + 7) (show startGuard.length = 4 from rfl)]
      exact addonSep _ _ i.val
        (by rw [hp5]; have := i.isLt; omega)
        (by rw [h5]; have := i.isLt; omega) hd

/-- Witness for C4 at the add-ons `05` and `12345`. -/
theorem claim_C4_witness :
    encode2 ['0', '5'] = some (encode2Core ['0', '5']) ∧
    (encode2Core ['0', '5']).module_count = 20 ∧
    encode5 ['1', '2', '3', '4', '5'] = some (encode5Core ['1', '2', '3', '4', '5']) ∧
    (encode5Core ['1', '2', '3', '4', '5']).module_count = 47 := by
  have h2 : encode2 ['0', '5'] = some (encode2Core ['0', '5']) := by
    rw [encode2, if_pos (by decide)]
  have h5 : encode5 ['1', '2', '3', '4', '5'] = some (encode5Core ['1', '2', '3', '4', '5']) := by
    rw [encode5, if_pos (by decide)]
  exact ⟨h2, (claim_C4.1 _ _ h2).1, h5, (claim_C4.2 _ _ h5).1⟩

end AddonEncoder

namespace ISBNValidator

theorem weightedTotal_eq_enumFrom (s : List Char) :
    ∀ k, weightedTotal k s
      = ((s.enumFrom k).map fun p => charVal p.2 * (if p.1 % 2 = 0 then 1 else 3)).sum := by
  induction s with
  | nil => intro k; simp [weightedTotal]
  | cons c cs ih =>
      intro k
      simp only [weightedTotal, List.enumFrom_cons, List.map_cons, List.sum_cons, ih (k + 1)]

theorem weightedTotal_eq_spec (s : List Char) : weightedTotal 0 s = specWeightedSum s := by
  rw [specWeightedSum, List.enum, weightedTotal_eq_enumFrom]

theorem digitChar_isDigit {k : ℕ} (h : k < 10) : (Nat.digitChar k).isDigit = true := by
  interval_cases k <;> decide

theorem checkDigitChar_isDigit (s : List Char) : (checkDigitChar s).isDigit = true := by
  rw [checkDigitChar]
  exact digitChar_isDigit (Nat.mod_lt _ (by norm_num))

theorem extractDigits_idem (s : List Char) :
    extractDigits (extractDigits s) = extractDigits s := by
  simp [extractDigits, List.filter_filter]

theorem validate_extract (s : List Char) : validate (extractDigits s) = validate s := by
  unfold validate
  rw [extractDigits_idem]

theorem validate_step (s : List Char) (h12 : s.length = 12)
    (hd : ∀ c ∈ s, c.isDigit = true)
    (hpre : s.take 3 = ['9', '7', '8'] ∨ s.take 3 = ['9', '7', '9'])
    (c : Char) (hc : c.isDigit = true) :
    validate (s ++ [c])
      = if checkDigitChar s ≠ c
          then { is_valid := false, error_message := some (checksumErrMsg (checkDigitChar s) c) }
          else { is_valid := true, error_message := none } := by
  have hall : ∀ a ∈ s ++ [c], a.isDigit = true := by
    intro a ha
    rcases List.mem_append.1 ha with ha | ha
    · exact hd a ha
    · simp at ha
      subst ha
      exact hc
  have hext : extractDigits (s ++ [c]) = s ++ [c] :=
    List.filter_eq_self.mpr hall
  have hlen : (s ++ [c]).length = 13 := by
    simp [h12]
  have htake3 : (s ++ [c]).take 3 = s.take 3 :=
    List.take_append_of_le_length (by omega)
  have htake12 : (s ++ [c]).take 12 = s := List.take_left' h12
  have hgetD : (s ++ [c]).getD 12 ' ' = c := by
    have hl : (12 : ℕ) < (s ++ [c]).length := by omega
    rw [List.getD_eq_getElem _ _ hl, List.getElem_append_right (by omega)]
    simp [h12]
  have hccd : calculateCheckDigit s = some (checkDigitChar s) := by
    rw [calculateCheckDigit, if_pos ⟨h12, by simpa [List.all_eq_true] using hd⟩]
  unfold validate
  simp only [hext, hlen, htake3, htake12, hgetD, hccd]
  rw [if_neg (by simp), if_neg (not_not_intro hpre)]

/-- C3: for every 12-character digit string, `calculate_check_digit` returns
`(10 − (S mod 10)) mod 10` where `S` weights the digits alternately ×1/×3
left to right; for a 978/979-prefixed prefix, appending that digit makes
`validate` accept, while appending any other digit is rejected with the
checksum-mismatch error. -/
theorem claim_C3 (s : List Char) (h12 : s.length = 12)
    (hd : ∀ c ∈ s, c.isDigit = true) :
    calculateCheckDigit s = some (Nat.digitChar ((10 - specWeightedSum s % 10) % 10)) ∧
    ((s.take 3 = ['9', '7', '8'] ∨ s.take 3 = ['9', '7', '9']) →
      (validate (s ++ [checkDigitChar s])
          = { is_valid := true, error_message := none } ∧
       ∀ c : Char, c.isDigit = true → c ≠ checkDigitChar s →
         validate (s ++ [c])
           = { is_valid := false
               error_message := some (checksumErrMsg (checkDigitChar s) c) })) := by
  constructor
  · rw [calculateCheckDigit, if_pos ⟨h12, by simpa [List.all_eq_true] using hd⟩,
      checkDigitChar, weightedTotal_eq_spec]
  · intro hpre
    constructor
    · rw [validate_step s h12 hd hpre _ (checkDigitChar_isDigit s), if_neg (by simp)]
    · intro c hc hne
      rw [validate_step s h12 hd hpre c hc, if_pos (Ne.symm hne)]

/-- Witness for C3 at the prefix `978756492235`. -/
theorem claim_C3_witness :
    (['9', '7', '8', '7', '5', '6', '4', '9', '2', '2', '3', '5'].length = 12) ∧
    validate (['9', '7', '8', '7', '5', '6', '4', '9', '2', '2', '3', '5']
        ++ [checkDigitChar ['9', '7', '8', '7', '5', '6', '4', '9', '2', '2', '3', '5']])
      = { is_valid := true, error_message := none } := by
  refine ⟨by decide, ?_⟩
  exact ((claim_C3 _ (by decide) (by decide)).2 (Or.inl (by decide))).1

end ISBNValidator

namespace ISBNValidator

theorem validate_shape (x : List Char) :
    validate x = { is_valid := true, error_message := none }
      ∨ (validate x).is_valid = false := by
  simp only [validate]
  split_ifs
  · right
    rfl
  · rcases calculateCheckDigit (List.take 12 (extractDigits x)) with _ | e
    · right
      rfl
    · by_cases hif : e = (extractDigits x).getD 12 ' '
      · left
        simp [hif]
      · right
        have hif2 : ¬e = (extractDigits x)[12]?.getD ' ' := by
          simpa [List.getD_eq_getElem?_getD] using hif
        simp [hif2]
  · right
    rfl

theorem validate_valid_shape (x : List Char) (h : (validate x).is_valid = true) :
    validate x = { is_valid := true, error_message := none } := by
  rcases validate_shape x with hs | hs
  · exact hs
  · rw [hs] at h
    cases h

/-- C10: `validate` (and `parse`) first strip every non-digit character and
apply the length/prefix/check-digit rules to the remaining digit string only;
inputs with the same embedded digits validate identically, a valid embedded
ISBN-13 is accepted, and the invalid-length outcome depends only on the digit
count. -/
theorem claim_C10 (s : List Char) :
    validate s = validate (extractDigits s) ∧
    (∀ t : List Char, extractDigits t = extractDigits s → validate t = validate s) ∧
    ((extractDigits s).length ≠ 13 →
      validate s
        = { is_valid := false
            error_message := some (lengthErrMsg (extractDigits s).length) }) ∧
    ((validate (extractDigits s)).is_valid = true →
      validate s = { is_valid := true, error_message := none }) ∧
    (parse s).digits = extractDigits s ∧
    (parse s).is_valid = (validate s).is_valid := by
  refine ⟨(validate_extract s).symm, ?_, ?_, ?_, ?_, ?_⟩
  · intro t ht
    rw [← validate_extract t, ← validate_extract s, ht]
  · intro hlen
    simp only [validate]
    rw [if_pos hlen]
  · intro hval
    rw [← validate_extract s]
    exact validate_valid_shape _ hval
  · simp only [parse]
    split_ifs <;> rfl
  · simp only [parse]
    split_ifs with h
    · exact h.symm
    · simp [Bool.not_eq_true] at h
      rw [h]

/-- Witness for C10 at the hyphenated input `978-7-5649-2235-1`. -/
theorem claim_C10_witness :
    (validate (extractDigits
        ['9', '7', '8', '-', '7', '-', '5', '6', '4', '9', '-', '2', '2', '3', '5', '-', '1'])).is_valid
      = true ∧
    validate ['9', '7', '8', '-', '7', '-', '5', '6', '4', '9', '-', '2', '2', '3', '5', '-', '1']
      = { is_valid := true, error_message := none } := by
  have h : (validate (extractDigits
      ['9', '7', '8', '-', '7', '-', '5', '6', '4', '9', '-', '2', '2', '3', '5', '-', '1'])).is_valid
      = true := by decide
  exact ⟨h,
    (claim_C10 ['9', '7', '8', '-', '7', '-', '5', '6', '4', '9', '-', '2', '2', '3', '5', '-', '1']).2.2.2.1 h⟩

end ISBNValidator

namespace TIFRenderer

/-- C5: image-size resolution: pixel values take precedence over millimeter
values per axis; with aspect lock and exactly one axis given the other is
derived from the nominal default aspect ratio; with neither axis given the
nominal default size is used; with lock disabled each missing axis falls back
independently, and with both pixel dimensions given the result equals the
request exactly. -/
theorem claim_C5 (cfg : SizeConfig) :
    (∀ w : ℤ, cfg.width_px = some w → resolvedWidthPx cfg = some w) ∧
    (∀ h : ℤ, cfg.height_px = some h → resolvedHeightPx cfg = some h) ∧
    (cfg.lock_aspect_ratio = true →
      ∀ w : ℤ, resolvedWidthPx cfg = some w → resolvedHeightPx cfg = none →
        calculateImageSize cfg
          = (w, intTrunc ((w : ℚ)
              / ((defaultWidthPx cfg : ℚ) / (defaultHeightPx cfg : ℚ))))) ∧
    (cfg.lock_aspect_ratio = true →
      ∀ h : ℤ, resolvedWidthPx cfg = none → resolvedHeightPx cfg = some h →
        calculateImageSize cfg
          = (intTrunc ((h : ℚ)
              * ((defaultWidthPx cfg : ℚ) / (defaultHeightPx cfg : ℚ))), h)) ∧
    (resolvedWidthPx cfg = none → resolvedHeightPx cfg = none →
      calculateImageSize cfg = (defaultWidthPx cfg, defaultHeightPx cfg)) ∧
    (cfg.lock_aspect_ratio = false →
      calculateImageSize cfg
        = ((resolvedWidthPx cfg).getD (defaultWidthPx cfg),
           (resolvedHeightPx cfg).getD (defaultHeightPx cfg))) ∧
    (cfg.lock_aspect_ratio = false →
      ∀ (w h : ℤ), cfg.width_px = some w → cfg.height_px = some h →
        calculateImageSize cfg = (w, h)) := by
  refine ⟨?_, ?_, ?_, ?_, ?_, ?_, ?_⟩
  · intro w hw
    simp [resolvedWidthPx, hw]
  · intro h hh
    simp [resolvedHeightPx, hh]
  · intro hlock w hw hh
    simp [calculateImageSize, hlock, hw, hh]
  · intro hlock h hw hh
    simp [calculateImageSize, hlock, hw, hh]
  · intro hw hh
    by_cases hlock : cfg.lock_aspect_ratio = true
    · simp [calculateImageSize, hlock, hw, hh]
    · simp only [Bool.not_eq_true] at hlock
      simp [calculateImageSize, hlock, hw, hh]
  · intro hlock
    simp [calculateImageSize, hlock]
  · intro hlock w h hw hh
    simp [calculateImageSize, hlock, resolvedWidthPx, resolvedHeightPx, hw, hh]

/-- Witness for C5: lock disabled and both pixel dimensions set. -/
theorem claim_C5_witness :
    ({ dpi := 300, width_mm := some 50, height_mm := some 40, width_px := some 640,
       height_px := some 480, lock_aspect_ratio := false,
       addon_modules := none : SizeConfig }).lock_aspect_ratio = false ∧
    calculateImageSize
      { dpi := 300, width_mm := some 50, height_mm := some 40, width_px := some 640,
        height_px := some 480, lock_aspect_ratio := false, addon_modules := none }
      = (640, 480) := by
  refine ⟨rfl, ?_⟩
  exact (claim_C5 _).2.2.2.2.2.2 rfl 640 480 rfl rfl

/-- C6 counterexample: at `mm = 1`, `dpi = 300` the code's `int(mm*dpi/25.4)`
gives 11 while the claimed `round` gives 12. -/
theorem claim_C6_counterexample :
    mmToPx 1 300 = 11 ∧ round ((1 : ℚ) * 300 / (254 / 10)) = 12 ∧ (11 : ℤ) ≠ 12 := by
  refine ⟨?_, ?_, by decide⟩
  · rw [mmToPx, intTrunc, if_neg (by norm_num)]
    rw [show ((1 : ℚ) * 300 / (254 / 10)) = 1500 / 127 by norm_num]
    rw [Int.floor_eq_iff]
    norm_num
  · rw [round_eq, show ((1 : ℚ) * 300 / (254 / 10)) = 1500 / 127 by norm_num]
    rw [Int.floor_eq_iff]
    norm_num

/-- C6 amended: for nonnegative `mm * dpi` the conversion is the floor
(truncation) of `mm * dpi / 25.4`, not the nearest integer. -/
theorem claim_C6 (mm dpi : ℚ) (h : 0 ≤ mm * dpi) :
    mmToPx mm dpi = ⌊mm * dpi / (254 / 10)⌋ := by
  rw [mmToPx, intTrunc, if_neg (not_lt.mpr (div_nonneg h (by norm_num)))]

/-- Witness for the amended C6 at `mm = 1`, `dpi = 300`. -/
theorem claim_C6_witness :
    (0 : ℚ) ≤ 1 * 300 ∧ mmToPx 1 300 = ⌊(1 : ℚ) * 300 / (254 / 10)⌋ :=
  ⟨by norm_num, claim_C6 1 300 (by norm_num)⟩

/-- C9: the main symbol's left edge is `int(11 * module_width)` minus
`int(0.5 * dpi / 25.4)` when no add-on pattern is present (strictly left of
the nominal 11-module quiet zone whenever that offset is positive), and
exactly `int(11 * module_width)` when an add-on is present. -/
theorem claim_C9 (hasAddon : Bool) (font_size isbn_text_offset_y digits_offset_y height_px : ℤ)
    (mw dpi : ℚ) :
    (hasAddon = false →
      (calculateBarcodeArea hasAddon font_size isbn_text_offset_y digits_offset_y
          height_px mw dpi).x
        = intTrunc ((11 : ℚ) * mw) - intTrunc ((1 / 2) * dpi / (254 / 10)) ∧
      (0 < intTrunc ((1 / 2) * dpi / (254 / 10)) →
        (calculateBarcodeArea hasAddon font_size isbn_text_offset_y digits_offset_y
            height_px mw dpi).x < intTrunc ((11 : ℚ) * mw))) ∧
    (hasAddon = true →
      (calculateBarcodeArea hasAddon font_size isbn_text_offset_y digits_offset_y
          height_px mw dpi).x = intTrunc ((11 : ℚ) * mw)) := by
  have hcast : ((leftQuietZoneModules : ℕ) : ℚ) = 11 := by
    norm_num [leftQuietZoneModules]
  constructor
  · intro ha
    subst ha
    have hx : (calculateBarcodeArea false font_size isbn_text_offset_y digits_offset_y
        height_px mw dpi).x
        = intTrunc ((11 : ℚ) * mw) - intTrunc ((1 / 2) * dpi / (254 / 10)) := by
      simp [calculateBarcodeArea, mmToPx, hcast]
    refine ⟨hx, fun hpos => ?_⟩
    rw [hx]
    omega
  · intro ha
    subst ha
    simp [calculateBarcodeArea, mmToPx, hcast]

/-- Witness for C9 at `module_width = 2`, `dpi = 300`, no add-on. -/
theorem claim_C9_witness :
    (calculateBarcodeArea false 10 5 2 500 2 300).x
      = intTrunc ((11 : ℚ) * 2) - intTrunc ((1 / 2) * 300 / (254 / 10)) :=
  ((claim_C9 false 10 5 2 500 2 300).1 rfl).1

end TIFRenderer

namespace TIFRenderer

theorem filterMap_enumFrom_eq {β : Type} (bars : List ℕ) (g : ℕ → β) :
    ∀ k, (bars.enumFrom k).filterMap (fun ib => if ib.2 = 1 then some (g ib.1) else none)
      = (((List.range bars.length).filter fun i => bars.getD i 0 = 1).map
          fun i => g (k + i)) := by
  induction bars with
  | nil =>
      intro k
      simp
  | cons b bs ih =>
      intro k
      have hcomp : ((fun i => g (k + i)) ∘ Nat.succ) = fun i => g (k + 1 + i) := by
        funext i
        simp only [Function.comp_apply]
        congr 1
        omega
      have hpred : ((fun i => decide ((b :: bs).getD i 0 = 1)) ∘ Nat.succ)
          = fun i => decide (bs.getD i 0 = 1) := by
        funext i
        simp [List.getD_cons_succ]
      rw [List.enumFrom_cons, List.filterMap_cons, List.length_cons,
        List.range_succ_eq_map, List.filter_cons]
      by_cases hb : b = 1
      · subst hb
        rw [if_pos rfl, if_pos (by simp)]
        rw [List.filter_map, hpred, List.map_cons, List.map_map, hcomp, ih (k + 1)]
        simp
      · rw [if_neg hb, if_neg (by simpa using hb)]
        rw [List.filter_map, hpred, List.map_map, hcomp, ih (k + 1)]

/-- C7 counterexample: with `area.x = 0`, `module_width = 8/5`, the dark
module at index 1 is drawn at `x = int(1.6) = 1`, not the claimed
`round(1.6) = 2`. -/
theorem claim_C7_counterexample :
    drawBarcode { bars := [0, 1], module_count := 2, guard_positions := [] }
        { x := 0, y := 0, width := 10, height := 10, module_width := 8 / 5 }
      = [{ x1 := 1, y1 := 0, x2 := 2, y2 := 10 }] ∧
    (0 : ℤ) + round ((1 : ℚ) * (8 / 5)) = 2 ∧
    ({ x1 := 1, y1 := 0, x2 := 2, y2 := 10 : Rect }).x1
      ≠ (0 : ℤ) + round ((1 : ℚ) * (8 / 5)) := by
  have h2 : round ((1 : ℚ) * (8 / 5)) = 2 := by
    rw [round_eq, show ((1 : ℚ) * (8 / 5) + 1 / 2) = 21 / 10 by norm_num,
      Int.floor_eq_iff]
    norm_num
  have hmw : intTrunc ((8 : ℚ) / 5) = 1 := by
    rw [intTrunc, if_neg (by norm_num), Int.floor_eq_iff]
    norm_num
  refine ⟨?_, by rw [h2]; norm_num, by rw [h2]; decide⟩
  simp only [drawBarcode, List.enum, List.enumFrom, List.filterMap_cons,
    List.filterMap_nil]
  norm_num [hmw]

/-- C7 amended: each dark module `i` is drawn at
`x = area.x + int(i * module_width)` (truncation, not rounding), with right
edge `x + int(module_width)`; its bottom edge is
`area.y + height + int(height * 0.1)` when `i` is a guard position and
`area.y + height` otherwise — the 10% guard extension is truncated and added
at the bottom only. -/
theorem claim_C7 (pattern : BarcodePattern) (area : BarcodeArea) :
    drawBarcode pattern area
      = (((List.range pattern.bars.length).filter
            fun i => pattern.bars.getD i 0 = 1).map
          fun i =>
            { x1 := area.x + intTrunc ((i : ℚ) * area.module_width)
              y1 := area.y
              x2 := area.x + intTrunc ((i : ℚ) * area.module_width)
                + intTrunc area.module_width
              y2 := area.y + area.height +
                (if i ∈ pattern.guard_positions
                  then intTrunc ((area.height : ℚ) * (1 / 10)) else 0) }) := by
  have h := filterMap_enumFrom_eq pattern.bars
    (fun i : ℕ =>
      { x1 := area.x + intTrunc ((i : ℚ) * area.module_width)
        y1 := area.y
        x2 := area.x + intTrunc ((i : ℚ) * area.module_width)
          + intTrunc area.module_width
        y2 := area.y + area.height +
          (if i ∈ pattern.guard_positions
            then intTrunc ((area.height : ℚ) * (1 / 10)) else 0) : Rect }) 0
  simp only [Nat.zero_add] at h
  simpa [drawBarcode, List.enum] using h

end TIFRenderer

namespace TemplateManager

theorem roundtrip_entry (k : String) (v : PyVal)
    (h : scalarOk v = true ∨ (k ∈ colorKeys ∧ isTuple v = true)) :
    deserializeValue k (serializeValue v) = v := by
  rcases h with h | ⟨hk, ht⟩
  · cases v <;> simp_all [scalarOk, serializeValue, deserializeValue] <;>
      split_ifs <;> rfl
  · cases v <;> simp_all [isTuple, serializeValue, deserializeValue]

/-- C8: on a render-configuration document whose color keys hold tuples and
whose other fields are scalars, `_deserialize_config ∘ _serialize_config` is
the identity: every field round-trips exactly, color tuples coming back as
tuples. -/
theorem claim_C8 (cfg : List (String × PyVal))
    (h : ∀ kv ∈ cfg, scalarOk kv.2 = true ∨ (kv.1 ∈ colorKeys ∧ isTuple kv.2 = true)) :
    deserializeConfig (serializeConfig cfg) = cfg := by
  induction cfg with
  | nil => rfl
  | cons kv rest ih =>
      simp only [serializeConfig, deserializeConfig, List.map_cons, List.map_map]
      have hrest := ih (fun x hx => h x (by simp [hx]))
      simp only [serializeConfig, deserializeConfig, List.map_map] at hrest
      rw [roundtrip_entry kv.1 kv.2 (h kv (by simp))]
      simp only [hrest]

/-- Witness for C8 at a two-field document. -/
theorem claim_C8_witness :
    (∀ kv ∈ ([("dpi", PyVal.vInt 300),
        ("foreground_color", PyVal.vTuple [PyVal.vInt 0, PyVal.vInt 0, PyVal.vInt 0])]
        : List (String × PyVal)),
      scalarOk kv.2 = true ∨ (kv.1 ∈ colorKeys ∧ isTuple kv.2 = true)) ∧
    deserializeConfig (serializeConfig
        [("dpi", PyVal.vInt 300),
         ("foreground_color", PyVal.vTuple [PyVal.vInt 0, PyVal.vInt 0, PyVal.vInt 0])])
      = [("dpi", PyVal.vInt 300),
         ("foreground_color", PyVal.vTuple [PyVal.vInt 0, PyVal.vInt 0, PyVal.vInt 0])] := by
  have h : ∀ kv ∈ ([("dpi", PyVal.vInt 300),
      ("foreground_color", PyVal.vTuple [PyVal.vInt 0, PyVal.vInt 0, PyVal.vInt 0])]
      : List (String × PyVal)),
      scalarOk kv.2 = true ∨ (kv.1 ∈ colorKeys ∧ isTuple kv.2 = true) := by
    intro kv hkv
    simp only [List.mem_cons, List.mem_singleton] at hkv
    rcases hkv with rfl | rfl | h0
    · left
      rfl
    · right
      exact ⟨by simp [colorKeys], rfl⟩
    · simp at h0
  exact ⟨h, claim_C8 _ h⟩

end TemplateManager
